import Mathlib

/-! request-bot: the request ticket store of `src/index.js`

A shallow embedding of the `RequestBot` class: the in-memory mapping
`this.requests`, id generation, the four command handlers and the
load/save pair.

Modelling conventions.

* `this.requests` is an ordinary JavaScript object.  It is represented by the
  list of its own properties in the order in which `Object.entries`,
  `Object.keys` and `JSON.stringify` enumerate them: array-index keys in
  ascending numeric order first, then the other string keys in creation order.
* A property read `this.requests[id]` also sees what the object inherits from
  `Object.prototype`.
* Every handler receives, next to the interaction, a `World`: what the
  environment answers during that one command (clock, `Math.random()` draws,
  outcome of `fs.writeFile`, outcome of the Discord calls).
* The text written by `JSON.stringify` is represented by its parse tree
  (`Json`), members in the order written; the character level of
  `JSON.stringify` / `JSON.parse` belongs to the runtime.
-/

namespace RequestBot

/-! ## JavaScript objects -/

/-- The own enumerable string-keyed properties of an ordinary object, listed in
property-enumeration order. -/
abbrev JSObject (α : Type) := List (String × α)

/-- Reads a run of decimal digits as a number, most significant digit first. -/
def parseDigits : List Char → Nat → Option Nat
  | [], acc => some acc
  | c :: cs, acc =>
    if c.isDigit then parseDigits cs (acc * 10 + (c.toNat - 48)) else none

/-- The array index a property key denotes, if any: the key is the canonical
decimal rendering of an integer in `0 .. 2^32 - 2`. -/
def arrayIndex? (k : String) : Option Nat :=
  match k.data with
  | [] => none
  | c :: cs =>
    match parseDigits (c :: cs) 0 with
    | some n => if toString n = k ∧ n < 4294967295 then some n else none
    | none => none

namespace JSObject

variable {α : Type}

/-- The result of `Object.keys(o)`. -/
def keys (o : JSObject α) : List String := o.map Prod.fst

/-- Own-property read. -/
def get? : JSObject α → String → Option α
  | [], _ => none
  | (k', v) :: rest, k => if k' = k then some v else get? rest k

/-- Whether the object has own property `k`. -/
def hasOwn (o : JSObject α) (k : String) : Bool := (o.get? k).isSome

/-- Whether a newly created key `k` is enumerated before the existing key
`k'`: index keys go before every non-index key and before larger indices. -/
def comesBefore (k k' : String) : Bool :=
  match arrayIndex? k, arrayIndex? k' with
  | some n, some m => decide (n < m)
  | some _, none => true
  | none, _ => false

/-- Creates the property `k`, which the object does not have yet. -/
def insertNew (k : String) (v : α) : JSObject α → JSObject α
  | [] => [(k, v)]
  | (k', v') :: rest =>
    if comesBefore k k' then (k, v) :: (k', v') :: rest
    else (k', v') :: insertNew k v rest

/-- Overwrites the value of the existing property `k`; its place in the
enumeration order is kept. -/
def replace (k : String) (v : α) : JSObject α → JSObject α
  | [] => []
  | (k', v') :: rest =>
    if k' = k then (k', v) :: rest else (k', v') :: replace k v rest

/-- The assignment `o[k] = v` for a key other than `__proto__`, and the
definition of own property `k` with value `v` for any key. -/
def set (o : JSObject α) (k : String) (v : α) : JSObject α :=
  if o.hasOwn k then o.replace k v else o.insertNew k v

/-- The object built by `Object.fromEntries(es)`, and likewise by `JSON.parse`
from the members of an object literal: one property definition per entry, in
order. -/
def fromEntries (es : List (String × α)) : JSObject α :=
  es.foldl (fun o e => o.set e.1 e.2) []

/-- Key `k` is enumerated before key `k'` in every object that has both, unless
both are non-index keys (then creation order decides). -/
def Precedes (k k' : String) : Prop :=
  match arrayIndex? k, arrayIndex? k' with
  | some n, some m => n < m
  | some _, none => True
  | none, some _ => False
  | none, none => True

instance (k k' : String) : Decidable (Precedes k k') := by
  unfold Precedes
  cases arrayIndex? k <;> cases arrayIndex? k' <;> infer_instance

/-- The list is the property list of some object: no key occurs twice, index
keys come first and are ascending. -/
def WF (o : JSObject α) : Prop :=
  o.keys.Nodup ∧ o.keys.Pairwise Precedes

instance (o : JSObject α) : Decidable (WF o) := by
  unfold WF; infer_instance

end JSObject

/-! ## Data model -/

/-- One request record, as built in `handleRequest` and updated in
`handleStatus`.  `updatedAt` is absent until the first status update. -/
structure Ticket where
  userId : String
  username : String
  title : String
  status : String
  requestedAt : String
  updatedAt : Option String
  deriving DecidableEq, Repr

/-- Parse tree of a JSON text. -/
inductive Json where
  | null
  | bool (b : Bool)
  | num (literal : String)
  | str (s : String)
  | arr (items : List Json)
  | obj (members : List (String × Json))

/-- Content of `requests.json`. -/
inductive FileContent where
  | json (doc : Json)
  | malformed

/-- The file `requests.json`: `none` when it does not exist. -/
abbrev Disk := Option FileContent

/-- Outcome of `fs.writeFile`: success, or an error that leaves the file in
the given condition. -/
inductive WriteResult where
  | ok
  | failed (left : Disk)

/-- The integer `Math.floor(Math.random() * 9000)` of one draw; `Math.random()`
lies in `[0, 1)`. -/
abbrev Sample := Fin 9000

/-- What the environment supplies while one command is handled. -/
structure World where
  now : String
  random : List Sample
  write : WriteResult
  deliver : Bool

/-- The fields of `interaction.user` the handlers read. -/
structure User where
  id : String
  username : String

/-- State of the process: the bot's fields, the two properties a status update
can add to `Object.prototype`, and the file. -/
structure Bot where
  adminId : String
  requests : JSObject Ticket
  protoStatus : Option String
  protoUpdatedAt : Option String
  disk : Disk

/-- Calls of `interaction.reply`, by content. -/
inductive Reply where
  | submitted (title requestId : String)
  | requestError
  | permissionDenied
  | invalidRequestId
  | statusUpdated (requestId newStatus : String)
  | statusError
  | noRequests (filterStatus : Option String)
  | requests (filterStatus : Option String) (entries : List (String × Ticket))
  | listError
  | cleared (clearedCount : Int) (statusToClear : String)
  | clearError
  deriving DecidableEq

/-- A value that `this.requests[requestId]` can evaluate to. -/
inductive JSValue where
  | undefined
  | ticket (t : Ticket)
  | objectPrototype
  | function (name : String)
  | string (s : String)
  deriving DecidableEq

/-- Truthiness, as tested by `!` and `while`. -/
def JSValue.truthy : JSValue → Bool
  | .undefined => false
  | .ticket _ => true
  | .objectPrototype => true
  | .function _ => true
  | .string s => decide (s ≠ "")

/-- The methods every object inherits from `Object.prototype`. -/
def objectPrototypeFunctions : List String :=
  ["constructor", "__defineGetter__", "__defineSetter__", "hasOwnProperty",
   "__lookupGetter__", "__lookupSetter__", "isPrototypeOf",
   "propertyIsEnumerable", "toString", "valueOf", "toLocaleString"]

/-- The property read `this.requests[k]`: an own property, else what
`Object.prototype` provides. -/
def Bot.getRequest (b : Bot) (k : String) : JSValue :=
  match b.requests.get? k with
  | some t => .ticket t
  | none =>
    if k = "__proto__" then .objectPrototype
    else if k ∈ objectPrototypeFunctions then .function k
    else if k = "status" then
      match b.protoStatus with
      | some s => .string s
      | none => .undefined
    else if k = "updatedAt" then
      match b.protoUpdatedAt with
      | some s => .string s
      | none => .undefined
    else .undefined

/-! ## Persistence -/

/-- The member list `JSON.stringify` writes for one ticket; a property that is
absent is not written. -/
def ticketToJson (t : Ticket) : Json :=
  .obj ([("userId", .str t.userId), ("username", .str t.username),
         ("title", .str t.title), ("status", .str t.status),
         ("requestedAt", .str t.requestedAt)] ++
        match t.updatedAt with
        | some u => [("updatedAt", Json.str u)]
        | none => [])

/-- The document `JSON.stringify(this.requests, null, 2)`. -/
def stringify (requests : JSObject Ticket) : Json :=
  .obj (requests.map fun e => (e.1, ticketToJson e.2))

/-- Reads a parsed object as a ticket; `none` when it is not of that shape. -/
def ticketOfJson : Json → Option Ticket
  | .obj members =>
    let o := JSObject.fromEntries members
    match o.get? "userId", o.get? "username", o.get? "title", o.get? "status",
        o.get? "requestedAt" with
    | some (.str userId), some (.str username), some (.str title),
        some (.str status), some (.str requestedAt) =>
      match o.get? "updatedAt" with
      | none =>
        if o.length = 5 then
          some ⟨userId, username, title, status, requestedAt, none⟩
        else none
      | some (.str u) =>
        if o.length = 6 then
          some ⟨userId, username, title, status, requestedAt, some u⟩
        else none
      | some _ => none
    | _, _, _, _, _ => none
  | _ => none

/-- The value of `JSON.parse(data)` as a ticket mapping; `none` when the
document is not a mapping of tickets. -/
def parseRequests : Json → Option (JSObject Ticket)
  | .obj members =>
    (JSObject.fromEntries members).mapM fun e =>
      (ticketOfJson e.2).map fun t => (e.1, t)
  | _ => none

/-- Embedding of `saveRequests`: the state afterwards and whether the write
succeeded (`false`: the error is rethrown). -/
def saveRequests (b : Bot) : WriteResult → Bot × Bool
  | .ok => ({ b with disk := some (.json (stringify b.requests)) }, true)
  | .failed left => ({ b with disk := left }, false)

/-- Embedding of `loadRequests`.  `readError` is a failure of `fs.readFile`
other than a missing file.  The result is `none` when the file parses to
something that is not a ticket mapping. -/
def loadRequests (b : Bot) (readError : Bool) (write : WriteResult) :
    Option Bot :=
  if readError then some b
  else
    match b.disk with
    | none => some (saveRequests { b with requests := [] } write).1
    | some .malformed => some b
    | some (.json doc) =>
      match parseRequests doc with
      | some requests => some { b with requests := requests }
      | none => none

/-- The fields set by the constructor, before `loadRequests` runs. -/
def Bot.new (adminId : String) (disk : Disk) : Bot :=
  { adminId := adminId, requests := [], protoStatus := none,
    protoUpdatedAt := none, disk := disk }

/-! ## Commands -/

/-- The `choices` of the `status` option of `/status` in `registerCommands`. -/
def statusChoices : List String :=
  ["in progress", "fulfilled", "rejected", "delayed"]

/-- The `choices` of the `status` option of `/clear` and of `/list`. -/
def filterChoices : List String :=
  ["pending", "in progress", "fulfilled", "rejected", "delayed"]

/-- Embedding of `generateRequestId`: draws until the id is not taken.  The
result is the id and the draws left over; `none` when the loop is still running
after all the given draws. -/
def generateRequestId (b : Bot) : List Sample → Option (String × List Sample)
  | [] => none
  | s :: rest =>
    let requestId := toString (s.val + 1000)
    if (b.getRequest requestId).truthy then generateRequestId b rest
    else some (requestId, rest)

/-- Embedding of `handleRequest`; `none` when `generateRequestId` does not
return. -/
def handleRequest (b : Bot) (user : User) (title : String) (w : World) :
    Option (Bot × List Reply) :=
  match generateRequestId b w.random with
  | none => none
  | some (requestId, _) =>
    let request : Ticket :=
      { userId := user.id, username := user.username, title := title,
        status := "pending", requestedAt := w.now, updatedAt := none }
    let b₁ := { b with requests := b.requests.set requestId request }
    match saveRequests b₁ w.write with
    | (b₂, false) => some (b₂, [.requestError])
    | (b₂, true) =>
      if w.deliver then some (b₂, [.submitted title requestId])
      else some (b₂, [.submitted title requestId, .requestError])

/-- The part of `handleStatus` after the two assignments: save, notify the
requester, reply. -/
def finishStatus (b : Bot) (requestId newStatus : String) (w : World) :
    Bot × List Reply :=
  match saveRequests b w.write with
  | (b₂, false) => (b₂, [.statusError])
  | (b₂, true) =>
    if w.deliver then (b₂, [.statusUpdated requestId newStatus])
    else (b₂, [.statusError])

/-- Embedding of `handleStatus`. -/
def handleStatus (b : Bot) (user : User) (requestId newStatus : String)
    (w : World) : Bot × List Reply :=
  if user.id ≠ b.adminId then (b, [.permissionDenied])
  else if !(b.getRequest requestId).truthy then (b, [.invalidRequestId])
  else
    match b.getRequest requestId with
    | .ticket t =>
      let request : Ticket :=
        { t with status := newStatus, updatedAt := some w.now }
      finishStatus
        { b with requests := b.requests.replace requestId request }
        requestId newStatus w
    | .objectPrototype =>
      finishStatus
        { b with protoStatus := some newStatus, protoUpdatedAt := some w.now }
        requestId newStatus w
    | .function _ => finishStatus b requestId newStatus w
    | .string _ => (b, [.statusError])
    | .undefined => (b, [.invalidRequestId])

/-- The entries `handleList` keeps: `Object.entries(this.requests)` filtered
by `!filterStatus || req.status === filterStatus`. -/
def listEntries (requests : JSObject Ticket) (filterStatus : Option String) :
    List (String × Ticket) :=
  requests.filter fun e =>
    match filterStatus with
    | none => true
    | some s => decide (s = "") || decide (e.2.status = s)

/-- Embedding of `handleList`. -/
def handleList (b : Bot) (user : User) (filterStatus : Option String) :
    Bot × List Reply :=
  if user.id ≠ b.adminId then (b, [.permissionDenied])
  else
    let requests := listEntries b.requests filterStatus
    if requests.length = 0 then (b, [.noRequests filterStatus])
    else (b, [.requests filterStatus requests])

/-- The mapping `handleClear` assigns to `this.requests`. -/
def clearRequests (requests : JSObject Ticket) (statusToClear : String) :
    JSObject Ticket :=
  JSObject.fromEntries
    (requests.filter fun e => decide (e.2.status ≠ statusToClear))

/-- Embedding of `handleClear`. -/
def handleClear (b : Bot) (user : User) (statusToClear : String) (w : World) :
    Bot × List Reply :=
  if user.id ≠ b.adminId then (b, [.permissionDenied])
  else
    let initialCount : Int := b.requests.keys.length
    let requests := clearRequests b.requests statusToClear
    let clearedCount : Int := initialCount - requests.keys.length
    match saveRequests { b with requests := requests } w.write with
    | (b₂, false) => (b₂, [.clearError])
    | (b₂, true) => (b₂, [.cleared clearedCount statusToClear])

/-- A decoded slash command. -/
inductive Command where
  | request (title : String)
  | status (requestId newStatus : String)
  | list (filterStatus : Option String)
  | clear (statusToClear : String)

/-- The command is one the schema of `registerCommands` lets a user send. -/
def Command.Offered : Command → Prop
  | .request _ => True
  | .status _ newStatus => newStatus ∈ statusChoices
  | .list none => True
  | .list (some s) => s ∈ filterChoices
  | .clear s => s ∈ filterChoices

/-- Embedding of `handleInteraction`. -/
def handleInteraction (b : Bot) (user : User) (c : Command) (w : World) :
    Option (Bot × List Reply) :=
  match c with
  | .request title => handleRequest b user title w
  | .status requestId newStatus => some (handleStatus b user requestId newStatus w)
  | .list filterStatus => some (handleList b user filterStatus)
  | .clear statusToClear => some (handleClear b user statusToClear w)

/-- States the process can be in after commands that follow the registered
schema, starting with no tickets. -/
inductive Reachable (adminId : String) : Bot → Prop where
  | init (disk : Disk) : Reachable adminId (Bot.new adminId disk)
  | step {b b' : Bot} {rs : List Reply} (user : User) (c : Command) (w : World) :
      Reachable adminId b → c.Offered →
      handleInteraction b user c w = some (b', rs) → Reachable adminId b'

/-- Handles `/request` commands one after the other, each with its own user,
title and world; the result is the final state and the ids that
`generateRequestId` returned, in order. -/
def handleRequests (b : Bot) : List (User × String × World) → Option (Bot × List String)
  | [] => some (b, [])
  | (user, title, w) :: cs =>
    match generateRequestId b w.random, handleRequest b user title w with
    | some (id, _), some (b₁, _) =>
      (handleRequests b₁ cs).map fun r => (r.1, id :: r.2)
    | _, _ => none

/-! ## Worked examples -/

/-- A store with one ticket, under id 1234. -/
def exampleStore : Bot :=
  { adminId := "admin"
    requests := [("1234", ⟨"u1", "alice", "Dune", "pending", "T0", none⟩)]
    protoStatus := none, protoUpdatedAt := none, disk := none }

/-- Two `/request` commands for `exampleStore`: the first draws 234 (id 1234,
taken) and then 0, the second draws 0 (id 1000, by then taken) and then 8999. -/
def exampleCreates : List (User × String × World) :=
  [(⟨"u2", "bob"⟩, "Alien", ⟨"T1", [234, 0], .ok, true⟩),
   (⟨"u3", "carol"⟩, "Heat", ⟨"T2", [0, 8999], .ok, true⟩)]

/-- The state after `exampleCreates`. -/
def exampleAfter : Bot :=
  { adminId := "admin"
    requests :=
      [("1000", ⟨"u2", "bob", "Alien", "pending", "T1", none⟩),
       ("1234", ⟨"u1", "alice", "Dune", "pending", "T0", none⟩),
       ("9999", ⟨"u3", "carol", "Heat", "pending", "T2", none⟩)]
    protoStatus := none, protoUpdatedAt := none
    disk := some (.json (stringify
      [("1000", ⟨"u2", "bob", "Alien", "pending", "T1", none⟩),
       ("1234", ⟨"u1", "alice", "Dune", "pending", "T0", none⟩),
       ("9999", ⟨"u3", "carol", "Heat", "pending", "T2", none⟩)])) }

/-- Two `/request` commands on the empty store: the first draws 1000 (id 2000),
the second draws 0 (id 1000). -/
def orderCreates : List (User × String × World) :=
  [(⟨"u1", "alice"⟩, "Dune", ⟨"T1", [1000], .ok, true⟩),
   (⟨"u2", "bob"⟩, "Alien", ⟨"T2", [0], .ok, true⟩)]

/-- A store with one fulfilled ticket between two pending ones. -/
def exampleMixed : Bot :=
  { adminId := "admin"
    requests :=
      [("1000", ⟨"u2", "bob", "Alien", "pending", "T1", none⟩),
       ("1234", ⟨"u1", "alice", "Dune", "fulfilled", "T0", some "T3"⟩),
       ("9999", ⟨"u3", "carol", "Heat", "pending", "T2", none⟩)]
    protoStatus := none, protoUpdatedAt := none, disk := none }

/-- A process started on the file of `b` loads the mapping of `b`: the
constructor followed by `loadRequests`, with the read succeeding. -/
def Reloaded (b : Bot) : Prop :=
  ∀ write : WriteResult,
    (loadRequests (Bot.new b.adminId b.disk) false write).map Bot.requests =
      some b.requests

/-- The state after `/request Dune` by alice on the empty store, the draw
being 0. -/
def exampleCreated : Bot :=
  { adminId := "admin"
    requests := [("1000", ⟨"u1", "alice", "Dune", "pending", "T1", none⟩)]
    protoStatus := none, protoUpdatedAt := none
    disk := some (.json (stringify
      [("1000", ⟨"u1", "alice", "Dune", "pending", "T1", none⟩)])) }

/-- The state after the administrator's `/status 1000 fulfilled` on
`exampleCreated`. -/
def exampleFulfilled : Bot :=
  { adminId := "admin"
    requests := [("1000", ⟨"u1", "alice", "Dune", "fulfilled", "T1", some "T2"⟩)]
    protoStatus := none, protoUpdatedAt := none
    disk := some (.json (stringify
      [("1000", ⟨"u1", "alice", "Dune", "fulfilled", "T1", some "T2"⟩)])) }

/-! ## Properties of the object model -/

theorem arrayIndex?_eq_some {k : String} {n : Nat} (h : arrayIndex? k = some n) :
    k = toString n := by
  unfold arrayIndex? at h
  split at h
  · simp at h
  · split at h
    · split at h
      · rename_i hc
        simp only [Option.some.injEq] at h
        subst h
        exact hc.1.symm
      · simp at h
    · simp at h

namespace JSObject

variable {α : Type}

theorem precedes_of_comesBefore {k k' : String} (h : comesBefore k k' = true) :
    Precedes k k' := by
  unfold comesBefore at h
  unfold Precedes
  cases hk : arrayIndex? k <;> cases hk' : arrayIndex? k' <;> simp_all

theorem precedes_of_not_comesBefore {k k' : String} (h : comesBefore k k' = false)
    (hne : k' ≠ k) : Precedes k' k := by
  unfold comesBefore at h
  unfold Precedes
  cases hk : arrayIndex? k <;> cases hk' : arrayIndex? k' <;> simp_all
  rename_i n m
  have h1 := arrayIndex?_eq_some hk
  have h2 := arrayIndex?_eq_some hk'
  rcases Nat.lt_or_ge m n with hlt | hge
  · exact hlt
  · exfalso
    have : n = m := Nat.le_antisymm hge h
    subst this
    exact hne (h2.trans h1.symm)

theorem precedes_trans {a b c : String} (h₁ : Precedes a b) (h₂ : Precedes b c) :
    Precedes a c := by
  unfold Precedes at *
  cases ha : arrayIndex? a <;> cases hb : arrayIndex? b <;>
    cases hc : arrayIndex? c <;> simp_all
  omega

theorem comesBefore_eq_false_of_precedes {k k' : String} (h : Precedes k' k) :
    comesBefore k k' = false := by
  unfold comesBefore
  unfold Precedes at h
  cases hk : arrayIndex? k <;> cases hk' : arrayIndex? k' <;> simp_all
  omega

@[simp] theorem keys_nil : keys ([] : JSObject α) = [] := rfl

@[simp] theorem keys_cons (e : String × α) (o : JSObject α) :
    keys (e :: o) = e.1 :: keys o := rfl

theorem get?_eq_none_iff {o : JSObject α} {k : String} :
    o.get? k = none ↔ k ∉ o.keys := by
  induction o with
  | nil => simp [get?]
  | cons e rest ih =>
    obtain ⟨k', v⟩ := e
    by_cases h : k' = k
    · simp [get?, h]
    · simp [get?, h, ih, Ne.symm h]

theorem hasOwn_iff {o : JSObject α} {k : String} : o.hasOwn k = true ↔ k ∈ o.keys := by
  unfold hasOwn
  rw [Option.isSome_iff_ne_none, Ne, get?_eq_none_iff, not_not]

theorem mem_of_get? {o : JSObject α} {k : String} {v : α} (h : o.get? k = some v) :
    (k, v) ∈ o := by
  induction o with
  | nil => simp [get?] at h
  | cons e rest ih =>
    obtain ⟨k', v'⟩ := e
    by_cases hk : k' = k
    · simp [get?, hk] at h
      simp [hk, h]
    · simp [get?, hk] at h
      exact List.mem_cons_of_mem _ (ih h)

theorem get?_of_mem {o : JSObject α} {k : String} {v : α} (hnd : o.keys.Nodup)
    (h : (k, v) ∈ o) : o.get? k = some v := by
  induction o with
  | nil => simp at h
  | cons e rest ih =>
    obtain ⟨k', v'⟩ := e
    simp only [keys_cons, List.nodup_cons] at hnd
    rcases List.mem_cons.1 h with heq | hmem
    · cases heq
      simp [get?]
    · have hk : k' ≠ k := by
        rintro rfl
        exact hnd.1 (List.mem_map_of_mem Prod.fst hmem)
      simp [get?, hk, ih hnd.2 hmem]

@[simp] theorem keys_replace (k : String) (v : α) (o : JSObject α) :
    (o.replace k v).keys = o.keys := by
  induction o with
  | nil => rfl
  | cons e rest ih =>
    obtain ⟨k', v'⟩ := e
    by_cases h : k' = k
    · simp [replace, h]
    · simp [replace, h, ih]

theorem get?_replace (k : String) (v : α) (o : JSObject α) (k₂ : String) :
    (o.replace k v).get? k₂ =
      if k₂ = k ∧ k ∈ o.keys then some v else o.get? k₂ := by
  induction o with
  | nil => simp [replace, get?]
  | cons e rest ih =>
    obtain ⟨k', v'⟩ := e
    by_cases h : k' = k
    · subst h
      by_cases h2 : k' = k₂
      · subst h2; simp [replace, get?]
      · simp [replace, get?, h2, Ne.symm h2]
    · by_cases h2 : k' = k₂
      · subst h2
        simp [replace, get?, h]
      · simp [replace, get?, h, h2, ih, Ne.symm h]

theorem mem_keys_insertNew {k : String} {v : α} {o : JSObject α} {x : String} :
    x ∈ (o.insertNew k v).keys ↔ x = k ∨ x ∈ o.keys := by
  induction o with
  | nil => simp [insertNew]
  | cons e rest ih =>
    obtain ⟨k', v'⟩ := e
    by_cases h : comesBefore k k' = true
    · simp [insertNew, h]
    · simp [insertNew, h, ih]
      tauto

theorem length_insertNew (k : String) (v : α) (o : JSObject α) :
    (o.insertNew k v).length = o.length + 1 := by
  induction o with
  | nil => rfl
  | cons e rest ih =>
    obtain ⟨k', v'⟩ := e
    by_cases h : comesBefore k k' = true
    · simp [insertNew, h]
    · simp [insertNew, h, ih]

theorem get?_insertNew {k : String} {v : α} {o : JSObject α} (hk : k ∉ o.keys)
    (k₂ : String) :
    (o.insertNew k v).get? k₂ = if k₂ = k then some v else o.get? k₂ := by
  induction o with
  | nil =>
    by_cases h : k = k₂
    · simp [insertNew, get?, h]
    · simp [insertNew, get?, h, Ne.symm h]
  | cons e rest ih =>
    obtain ⟨k', v'⟩ := e
    simp only [keys_cons, List.mem_cons, not_or] at hk
    by_cases h : comesBefore k k' = true
    · by_cases h2 : k = k₂
      · subst h2
        simp [insertNew, h, get?]
      · simp [insertNew, h, get?, h2, Ne.symm h2]
    · by_cases h2 : k' = k₂
      · subst h2
        have : k' ≠ k := fun e => hk.1 e.symm
        simp [insertNew, h, get?, this]
      · simp [insertNew, h, get?, h2, ih hk.2]

theorem wf_insertNew {k : String} (v : α) {o : JSObject α} (hwf : WF o)
    (hk : k ∉ o.keys) : WF (o.insertNew k v) := by
  induction o with
  | nil => simp [JSObject.insertNew, WF]
  | cons e rest ih =>
    obtain ⟨k', v'⟩ := e
    simp only [keys_cons, List.mem_cons, not_or] at hk
    obtain ⟨hnd, hpw⟩ := hwf
    simp only [keys_cons, List.nodup_cons, List.pairwise_cons] at hnd hpw
    by_cases h : comesBefore k k' = true
    · simp only [JSObject.insertNew, h, if_true]
      refine ⟨?_, ?_⟩
      · simp only [keys_cons, List.nodup_cons, List.mem_cons, not_or]
        exact ⟨⟨hk.1, hk.2⟩, hnd.1, hnd.2⟩
      · simp only [keys_cons, List.pairwise_cons, List.mem_cons]
        refine ⟨?_, hpw.1, hpw.2⟩
        rintro x (rfl | hx)
        · exact precedes_of_comesBefore h
        · exact precedes_trans (precedes_of_comesBefore h) (hpw.1 x hx)
    · have hcb : comesBefore k k' = false := by simpa using h
      simp only [JSObject.insertNew, hcb, Bool.false_eq_true, if_false]
      have ih' := ih ⟨hnd.2, hpw.2⟩ hk.2
      refine ⟨?_, ?_⟩
      · simp only [keys_cons, List.nodup_cons]
        refine ⟨?_, ih'.1⟩
        rw [mem_keys_insertNew]
        rintro (h1 | h1)
        · exact hk.1 h1.symm
        · exact hnd.1 h1
      · simp only [keys_cons, List.pairwise_cons]
        refine ⟨?_, ih'.2⟩
        intro x hx
        rcases mem_keys_insertNew.1 hx with rfl | hx
        · exact precedes_of_not_comesBefore hcb (fun e => hk.1 e.symm)
        · exact hpw.1 x hx

theorem wf_replace (k : String) (v : α) {o : JSObject α} (hwf : WF o) :
    WF (o.replace k v) := by
  unfold WF at *
  simpa using hwf

theorem wf_set (k : String) (v : α) {o : JSObject α} (hwf : WF o) : WF (o.set k v) := by
  unfold JSObject.set
  split
  · exact wf_replace k v hwf
  · rename_i h
    exact wf_insertNew v hwf (fun hm => h (hasOwn_iff.2 hm))

theorem wf_filter (p : String × α → Bool) {o : JSObject α} (hwf : WF o) :
    WF (List.filter p o) := by
  have hs : (keys (List.filter p o)).Sublist (keys o) :=
    List.Sublist.map _ (List.filter_sublist o)
  exact ⟨hwf.1.sublist hs, hwf.2.sublist hs⟩

theorem insertNew_eq_append {k : String} (v : α) {o : JSObject α}
    (h : ∀ x ∈ o.keys, Precedes x k) : o.insertNew k v = o ++ [(k, v)] := by
  induction o with
  | nil => rfl
  | cons e rest ih =>
    obtain ⟨k', v'⟩ := e
    have h1 : comesBefore k k' = false :=
      comesBefore_eq_false_of_precedes (h k' (by simp))
    simp only [JSObject.insertNew, h1, Bool.false_eq_true, if_false, List.cons_append]
    rw [ih (fun x hx => h x (List.mem_cons_of_mem _ hx))]

theorem foldl_set_eq_append (acc es : JSObject α) (hwf : WF (acc ++ es)) :
    es.foldl (fun o e => o.set e.1 e.2) acc = acc ++ es := by
  induction es generalizing acc with
  | nil => simp
  | cons e rest ih =>
    obtain ⟨k, v⟩ := e
    have hwf' : WF ((acc ++ [(k, v)]) ++ rest) := by simpa using hwf
    obtain ⟨hnd, hpw⟩ := hwf
    simp only [keys, List.map_append, List.map_cons] at hnd hpw
    have hk : k ∉ acc.keys := by
      intro hm
      have := (List.nodup_append.1 hnd).2.2
      exact this hm (by simp)
    have hprec : ∀ x ∈ acc.keys, Precedes x k := by
      intro x hx
      exact (List.pairwise_append.1 hpw).2.2 x hx k (by simp)
    have hset : acc.set k v = acc ++ [(k, v)] := by
      unfold JSObject.set
      have : acc.hasOwn k = false := by
        cases hh : acc.hasOwn k
        · rfl
        · exact absurd (hasOwn_iff.1 hh) hk
      simp only [this, Bool.false_eq_true, if_false]
      exact insertNew_eq_append v hprec
    simp only [List.foldl_cons, hset]
    rw [ih _ hwf']
    simp

theorem fromEntries_eq_self {o : JSObject α} (hwf : WF o) : fromEntries o = o := by
  unfold fromEntries
  simpa using foldl_set_eq_append [] o (by simpa using hwf)

end JSObject

/-! ## Decimal rendering of four-digit numbers -/

theorem toDigitsCore_four (fuel n : Nat) (h1 : 1000 ≤ n) (h2 : n < 10000) :
    Nat.toDigitsCore 10 (fuel + 4) n [] =
      [Nat.digitChar (n / 1000), Nat.digitChar (n / 100 % 10),
       Nat.digitChar (n / 10 % 10), Nat.digitChar (n % 10)] := by
  have a1 : n / 10 ≠ 0 := by omega
  have a2 : n / 10 / 10 ≠ 0 := by omega
  have a3 : n / 10 / 10 / 10 ≠ 0 := by omega
  have a4 : n / 10 / 10 / 10 / 10 = 0 := by omega
  have e2 : n / 10 / 10 = n / 100 := by omega
  have e5 : n / 100 / 10 % 10 = n / 1000 := by omega
  simp only [Nat.toDigitsCore, a1, a2, a3, a4, if_false, if_true]
  simp only [e2, e5]

theorem toString_four (n : Nat) (h1 : 1000 ≤ n) (h2 : n < 10000) :
    toString n = String.mk
      [Nat.digitChar (n / 1000), Nat.digitChar (n / 100 % 10),
       Nat.digitChar (n / 10 % 10), Nat.digitChar (n % 10)] := by
  show Nat.repr n = _
  unfold Nat.repr Nat.toDigits
  obtain ⟨m, rfl⟩ : ∃ m, n = m + 3 := ⟨n - 3, by omega⟩
  rw [show m + 3 + 1 = m + 4 from rfl, toDigitsCore_four m (m + 3) h1 h2]
  rfl

theorem digitChar_isDigit (d : Nat) (h : d < 10) :
    (Nat.digitChar d).isDigit = true ∧ (Nat.digitChar d).toNat - 48 = d := by
  interval_cases d <;> decide

theorem toString_four_data (n : Nat) (h1 : 1000 ≤ n) (h2 : n < 10000) :
    (toString n).data =
      [Nat.digitChar (n / 1000), Nat.digitChar (n / 100 % 10),
       Nat.digitChar (n / 10 % 10), Nat.digitChar (n % 10)] := by
  rw [toString_four n h1 h2]

theorem toString_four_length (n : Nat) (h1 : 1000 ≤ n) (h2 : n < 10000) :
    (toString n).length = 4 := by
  rw [toString_four n h1 h2]; rfl

theorem toString_four_digits (n : Nat) (h1 : 1000 ≤ n) (h2 : n < 10000) :
    ∀ c ∈ (toString n).data, c.isDigit = true := by
  rw [toString_four_data n h1 h2]
  intro c hc
  simp only [List.mem_cons, List.mem_singleton, List.not_mem_nil, or_false] at hc
  rcases hc with rfl | rfl | rfl | rfl
  · exact (digitChar_isDigit _ (by omega)).1
  · exact (digitChar_isDigit _ (by omega)).1
  · exact (digitChar_isDigit _ (by omega)).1
  · exact (digitChar_isDigit _ (by omega)).1

theorem arrayIndex?_toString_four (n : Nat) (h1 : 1000 ≤ n) (h2 : n < 10000) :
    arrayIndex? (toString n) = some n := by
  have d3 := digitChar_isDigit (n / 1000) (by omega)
  have d2 := digitChar_isDigit (n / 100 % 10) (by omega)
  have d1 := digitChar_isDigit (n / 10 % 10) (by omega)
  have d0 := digitChar_isDigit (n % 10) (by omega)
  have hp : parseDigits (toString n).data 0 = some n := by
    rw [toString_four_data n h1 h2]
    simp only [parseDigits, d3.1, d2.1, d1.1, d0.1, if_true, d3.2, d2.2, d1.2, d0.2]
    congr 1
    omega
  unfold arrayIndex?
  have hd := toString_four_data n h1 h2
  split
  · rename_i he
    rw [hd] at he
    simp at he
  · rename_i c cs he
    rw [← he, hp]
    have : n < 4294967295 := by omega
    simp [this]

theorem toString_four_injective {n m : Nat} (hn1 : 1000 ≤ n) (hn2 : n < 10000)
    (hm1 : 1000 ≤ m) (hm2 : m < 10000) (h : toString n = toString m) : n = m := by
  have a := arrayIndex?_toString_four n hn1 hn2
  have b := arrayIndex?_toString_four m hm1 hm2
  rw [h, b] at a
  exact (Option.some.inj a).symm

theorem Bot.getRequest_of_length_four (b : Bot) {k : String} (h : k.length = 4) :
    b.getRequest k =
      match b.requests.get? k with
      | some t => .ticket t
      | none => .undefined := by
  unfold Bot.getRequest
  cases b.requests.get? k with
  | some t => rfl
  | none =>
    have n1 : k ≠ "__proto__" := by rintro rfl; revert h; decide
    have n2 : k ∉ objectPrototypeFunctions := by
      intro hm
      simp only [objectPrototypeFunctions, List.mem_cons, List.mem_singleton,
        List.not_mem_nil, or_false] at hm
      rcases hm with rfl | rfl | rfl | rfl | rfl | rfl | rfl | rfl | rfl | rfl | rfl <;>
        revert h <;> decide
    have n3 : k ≠ "status" := by rintro rfl; revert h; decide
    have n4 : k ≠ "updatedAt" := by rintro rfl; revert h; decide
    simp [n1, n2, n3, n4]

/-- For a generated id, the loop condition of `generateRequestId` holds exactly
when the id is an own key of the mapping. -/
theorem truthy_getRequest_sample (b : Bot) (s : Sample) :
    (b.getRequest (toString (s.val + 1000))).truthy = true ↔
      toString (s.val + 1000) ∈ b.requests.keys := by
  have hl := toString_four_length (s.val + 1000) (by omega) (by omega)
  rw [b.getRequest_of_length_four hl]
  cases hg : b.requests.get? (toString (s.val + 1000)) with
  | some t =>
    simp only [JSValue.truthy, true_iff]
    by_contra hc
    rw [JSObject.get?_eq_none_iff.2 hc] at hg
    cases hg
  | none =>
    simp only [JSValue.truthy, Bool.false_eq_true, false_iff]
    exact JSObject.get?_eq_none_iff.1 hg

/-! ## Id generation and creation -/

theorem generateRequestId_eq_some {b : Bot} {samples rest : List Sample} {id : String}
    (h : generateRequestId b samples = some (id, rest)) :
    ∃ pre x, samples = pre ++ x :: rest ∧ id = toString (x.val + 1000) ∧
      (∀ s ∈ pre, toString (s.val + 1000) ∈ b.requests.keys) ∧
      id ∉ b.requests.keys := by
  induction samples with
  | nil => simp [generateRequestId] at h
  | cons s tl ih =>
    simp only [generateRequestId] at h
    split at h
    · rename_i ht
      obtain ⟨pre, x, hs, hid, hpre, hnew⟩ := ih h
      refine ⟨s :: pre, x, by simp [hs], hid, ?_, hnew⟩
      intro y hy
      rcases List.mem_cons.1 hy with rfl | hy
      · exact (truthy_getRequest_sample b y).1 ht
      · exact hpre y hy
    · rename_i ht
      simp only [Option.some.injEq, Prod.mk.injEq] at h
      obtain ⟨rfl, rfl⟩ := h
      refine ⟨[], s, rfl, rfl, by simp, ?_⟩
      intro hm
      exact ht ((truthy_getRequest_sample b s).2 hm)

theorem generateRequestId_append {b : Bot} (pre : List Sample) (x : Sample)
    (post : List Sample)
    (hpre : ∀ s ∈ pre, toString (s.val + 1000) ∈ b.requests.keys)
    (hx : toString (x.val + 1000) ∉ b.requests.keys) :
    generateRequestId b (pre ++ x :: post) = some (toString (x.val + 1000), post) := by
  induction pre with
  | nil =>
    have : (b.getRequest (toString (x.val + 1000))).truthy = false := by
      cases ht : (b.getRequest (toString (x.val + 1000))).truthy
      · rfl
      · exact absurd ((truthy_getRequest_sample b x).1 ht) hx
    simp [generateRequestId, this]
  | cons s tl ih =>
    have : (b.getRequest (toString (s.val + 1000))).truthy = true :=
      (truthy_getRequest_sample b s).2 (hpre s (by simp))
    simp only [List.cons_append, generateRequestId, this, if_true]
    exact ih (fun y hy => hpre y (List.mem_cons_of_mem _ hy))

/-- The ticket `handleRequest` stores. -/
theorem handleRequest_eq_some {b b' : Bot} {user : User} {title : String} {w : World}
    {rs : List Reply} (h : handleRequest b user title w = some (b', rs)) :
    ∃ id rest, generateRequestId b w.random = some (id, rest) ∧
      b'.requests = b.requests.insertNew id
        ⟨user.id, user.username, title, "pending", w.now, none⟩ ∧
      b'.adminId = b.adminId ∧ b'.protoStatus = b.protoStatus ∧
      b'.protoUpdatedAt = b.protoUpdatedAt := by
  unfold handleRequest at h
  split at h
  · simp at h
  · rename_i id rest hg
    obtain ⟨pre, x, -, -, -, hnew⟩ := generateRequestId_eq_some hg
    have hown : b.requests.hasOwn id = false := by
      cases hh : b.requests.hasOwn id
      · rfl
      · exact absurd (JSObject.hasOwn_iff.1 hh) hnew
    refine ⟨id, rest, hg, ?_⟩
    cases hw : w.write with
    | ok =>
      simp only [hw, saveRequests] at h
      split at h <;> simp only [Option.some.injEq, Prod.mk.injEq] at h <;>
        obtain ⟨rfl, -⟩ := h <;> simp [JSObject.set, hown]
    | failed left =>
      simp only [hw, saveRequests] at h
      simp only [Option.some.injEq, Prod.mk.injEq] at h
      obtain ⟨rfl, -⟩ := h
      simp [JSObject.set, hown]

/-! ## Claims -/

theorem handleRequests_spec (cs : List (User × String × World)) :
    ∀ (b b' : Bot) (ids : List String), b.requests.WF →
      handleRequests b cs = some (b', ids) →
      b'.requests.WF ∧
      (∀ id ∈ ids, ∃ s : Sample, id = toString (s.val + 1000)) ∧
      ids.Nodup ∧ (∀ id ∈ ids, id ∉ b.requests.keys) ∧
      (∀ k, k ∈ b'.requests.keys ↔ k ∈ ids ∨ k ∈ b.requests.keys) ∧
      (∀ k t, b.requests.get? k = some t → b'.requests.get? k = some t) ∧
      b'.requests.length = b.requests.length + ids.length := by
  induction cs with
  | nil =>
    intro b b' ids hwf h
    simp only [handleRequests, Option.some.injEq, Prod.mk.injEq] at h
    obtain ⟨rfl, rfl⟩ := h
    simp [hwf]
  | cons c cs ih =>
    intro b b' ids hwf h
    obtain ⟨user, title, w⟩ := c
    simp only [handleRequests] at h
    split at h
    · rename_i id rest b₁ rs hg hr
      obtain ⟨id', rest', hg', hreq, -, -, -⟩ := handleRequest_eq_some hr
      rw [hg] at hg'
      simp only [Option.some.injEq, Prod.mk.injEq] at hg'
      obtain ⟨rfl, rfl⟩ := hg'
      obtain ⟨pre, x, -, hid, -, hnew⟩ := generateRequestId_eq_some hg
      cases hrec : handleRequests b₁ cs with
      | none => simp [hrec] at h
      | some r =>
        obtain ⟨b₂, ids₂⟩ := r
        simp only [hrec, Option.map_some', Option.some.injEq, Prod.mk.injEq] at h
        obtain ⟨rfl, rfl⟩ := h
        have hwf₁ : b₁.requests.WF := by
          rw [hreq]; exact JSObject.wf_insertNew _ hwf hnew
        obtain ⟨h1, h2, h3, h4, h5, h6, h7⟩ := ih b₁ b₂ ids₂ hwf₁ hrec
        have hk₁ : ∀ k, k ∈ b₁.requests.keys ↔ k = id ∨ k ∈ b.requests.keys := by
          intro k; rw [hreq]; exact JSObject.mem_keys_insertNew
        refine ⟨h1, ?_, ?_, ?_, ?_, ?_, ?_⟩
        · intro i hi
          rcases List.mem_cons.1 hi with rfl | hi
          · exact ⟨x, hid⟩
          · exact h2 i hi
        · refine List.nodup_cons.2 ⟨?_, h3⟩
          intro hm
          exact h4 id hm ((hk₁ id).2 (Or.inl rfl))
        · intro i hi
          rcases List.mem_cons.1 hi with rfl | hi
          · exact hnew
          · intro hm
            exact h4 i hi ((hk₁ i).2 (Or.inr hm))
        · intro k
          rw [h5 k, hk₁ k, List.mem_cons]
          tauto
        · intro k t hk
          apply h6
          rw [hreq, JSObject.get?_insertNew hnew]
          have : k ≠ id := by
            rintro rfl
            rw [JSObject.get?_eq_none_iff.2 hnew] at hk
            cases hk
          simp [this, hk]
        · rw [h7, hreq, JSObject.length_insertNew]
          simp only [List.length_cons]
          omega
    · simp at h

/-- C1. In every sequence of `/request` commands, from any store and for any
random draws, each id that `generateRequestId` returns is a string of exactly
four decimal digits denoting a number in 1000..9999, the ids are pairwise
distinct and none was a key of the store before, so the keys of the store stay
pairwise distinct, every earlier ticket is kept as it was and the store grows by
one ticket per command. -/
theorem created_ids_fresh (b b' : Bot) (cs : List (User × String × World))
    (ids : List String) (hwf : b.requests.WF)
    (h : handleRequests b cs = some (b', ids)) :
    (∀ id ∈ ids, id.length = 4 ∧ (∀ c ∈ id.data, c.isDigit = true) ∧
      ∃ n, 1000 ≤ n ∧ n ≤ 9999 ∧ id = toString n) ∧
    ids.Nodup ∧ (∀ id ∈ ids, id ∉ b.requests.keys) ∧
    b'.requests.keys.Nodup ∧
    (∀ k, k ∈ b'.requests.keys ↔ k ∈ ids ∨ k ∈ b.requests.keys) ∧
    (∀ k t, b.requests.get? k = some t → b'.requests.get? k = some t) ∧
    b'.requests.length = b.requests.length + ids.length := by
  obtain ⟨h1, h2, h3, h4, h5, h6, h7⟩ := handleRequests_spec cs b b' ids hwf h
  refine ⟨?_, h3, h4, h1.1, h5, h6, h7⟩
  intro id hid
  obtain ⟨s, rfl⟩ := h2 id hid
  exact ⟨toString_four_length _ (by omega) (by omega),
    toString_four_digits _ (by omega) (by omega), s.val + 1000, by omega, by omega, rfl⟩

theorem created_ids_fresh_witness :
    exampleStore.requests.WF ∧
    handleRequests exampleStore exampleCreates = some (exampleAfter, ["1000", "9999"]) ∧
    (["1000", "9999"] : List String).Nodup ∧
    exampleAfter.requests.length = exampleStore.requests.length + 2 :=
  have h := created_ids_fresh exampleStore exampleAfter exampleCreates ["1000", "9999"]
    (by decide) (by rfl)
  ⟨by decide, by rfl, h.2.1, h.2.2.2.2.2.2⟩

/-! ### Status updates -/

theorem finishStatus_fields (b : Bot) (requestId newStatus : String) (w : World) :
    (finishStatus b requestId newStatus w).1.requests = b.requests ∧
    (finishStatus b requestId newStatus w).1.adminId = b.adminId ∧
    (finishStatus b requestId newStatus w).1.protoStatus = b.protoStatus ∧
    (finishStatus b requestId newStatus w).1.protoUpdatedAt = b.protoUpdatedAt := by
  unfold finishStatus
  cases w.write with
  | ok => cases w.deliver <;> simp [saveRequests]
  | failed left => simp [saveRequests]

/-- A status update by the administrator on an id the mapping has. -/
theorem handleStatus_of_ticket {b : Bot} {user : User} {requestId : String} {t : Ticket}
    (newStatus : String) (w : World) (hadmin : user.id = b.adminId)
    (hget : b.requests.get? requestId = some t) :
    handleStatus b user requestId newStatus w =
      finishStatus
        { b with requests := (b.requests.replace requestId
            ⟨t.userId, t.username, t.title, newStatus, t.requestedAt, some w.now⟩) }
        requestId newStatus w := by
  have hg : b.getRequest requestId = .ticket t := by
    unfold Bot.getRequest; rw [hget]
  unfold handleStatus
  simp [hadmin, hg, JSValue.truthy]

/-- Whatever `handleStatus` does, the own properties of the mapping other than
the addressed one keep their values and no key is created or removed. -/
theorem handleStatus_keys (b : Bot) (user : User) (requestId newStatus : String)
    (w : World) :
    (handleStatus b user requestId newStatus w).1.requests.keys = b.requests.keys ∧
    ∀ k, k ≠ requestId →
      (handleStatus b user requestId newStatus w).1.requests.get? k = b.requests.get? k := by
  unfold handleStatus
  split
  · simp
  · split
    · simp
    · split
      · rw [(finishStatus_fields _ _ _ _).1]
        refine ⟨by simp, ?_⟩
        intro k hk
        rw [JSObject.get?_replace]
        simp [hk]
      · rw [(finishStatus_fields _ _ _ _).1]; simp
      · rw [(finishStatus_fields _ _ _ _).1]; simp
      · simp
      · simp

/-- C6. A status update by the administrator on an existing ticket sets that
ticket's status to the new status and its updatedAt to the current time and
keeps its userId, username, title and requestedAt; the keys of the mapping and
their order are the same as before, and every other ticket is the same as
before. -/
theorem handleStatus_frame (b : Bot) (user : User) (requestId newStatus : String)
    (w : World) (t : Ticket) (hadmin : user.id = b.adminId)
    (hget : b.requests.get? requestId = some t) :
    (handleStatus b user requestId newStatus w).1.requests.get? requestId =
      some ⟨t.userId, t.username, t.title, newStatus, t.requestedAt, some w.now⟩ ∧
    (handleStatus b user requestId newStatus w).1.requests.keys = b.requests.keys ∧
    (∀ k, k ≠ requestId →
      (handleStatus b user requestId newStatus w).1.requests.get? k =
        b.requests.get? k) := by
  refine ⟨?_, handleStatus_keys b user requestId newStatus w⟩
  rw [handleStatus_of_ticket newStatus w hadmin hget, (finishStatus_fields _ _ _ _).1]
  simp only [JSObject.get?_replace]
  have : requestId ∈ b.requests.keys := by
    by_contra hc
    rw [JSObject.get?_eq_none_iff.2 hc] at hget
    cases hget
  simp [this]

theorem handleStatus_frame_witness :
    (handleStatus exampleAfter ⟨"admin", "root"⟩ "1234" "fulfilled"
        ⟨"T3", [], .ok, true⟩).1.requests.get? "1234" =
      some ⟨"u1", "alice", "Dune", "fulfilled", "T0", some "T3"⟩ ∧
    (handleStatus exampleAfter ⟨"admin", "root"⟩ "1234" "fulfilled"
        ⟨"T3", [], .ok, true⟩).1.requests.keys = ["1000", "1234", "9999"] :=
  have h := handleStatus_frame exampleAfter ⟨"admin", "root"⟩ "1234" "fulfilled"
    ⟨"T3", [], .ok, true⟩ ⟨"u1", "alice", "Dune", "pending", "T0", none⟩
    (by decide) (by decide)
  ⟨h.1, h.2.1⟩

/-- C2, at the failing input.  In the empty store the id `constructor` is not a
key, yet the administrator's `/status constructor fulfilled` is not answered
with "Invalid request ID.": the read `this.requests["constructor"]` yields the
inherited `Object` function, which is truthy, so the handler saves and goes on
to notify.  The mapping itself stays empty. -/
theorem handleStatus_inherited_id :
    "constructor" ∉ (Bot.new "admin" none).requests.keys ∧
    (Bot.new "admin" none).getRequest "constructor" = .function "constructor" ∧
    ∀ w : World,
      (handleStatus (Bot.new "admin" none) ⟨"admin", "root"⟩ "constructor"
          "fulfilled" w).2 ≠ [.invalidRequestId] ∧
      (handleStatus (Bot.new "admin" none) ⟨"admin", "root"⟩ "constructor"
          "fulfilled" w).2 =
        (match w.write, w.deliver with
          | .ok, true => [.statusUpdated "constructor" "fulfilled"]
          | _, _ => [.statusError]) ∧
      (handleStatus (Bot.new "admin" none) ⟨"admin", "root"⟩ "constructor"
          "fulfilled" w).1.requests = [] := by
  refine ⟨by decide, by decide, ?_⟩
  intro w
  have hg : (Bot.new "admin" none).getRequest "constructor" = .function "constructor" := by
    decide
  have hadm : (Bot.new "admin" none).adminId = "admin" := rfl
  unfold handleStatus
  simp only [hg, hadm, JSValue.truthy, finishStatus]
  rcases w with ⟨now, random, write, deliver⟩
  cases write <;> cases deliver <;> simp [saveRequests, Bot.new]

/-- An id that the mapping does not have and `Object.prototype` does not
provide is answered with "Invalid request ID." and nothing changes. -/
theorem handleStatus_undefined (b : Bot) (user : User) (requestId newStatus : String)
    (w : World) (hadmin : user.id = b.adminId)
    (hg : b.getRequest requestId = .undefined) :
    handleStatus b user requestId newStatus w = (b, [.invalidRequestId]) := by
  unfold handleStatus
  simp [hadmin, hg, JSValue.truthy]

/-! ### Authorization -/

/-- C7. A caller whose id is not the administrator id gets the "You don't have
permission" reply from `handleStatus`, `handleList` and `handleClear`, whatever
the arguments, and the state is the same as before; and no command of such a
caller changes or removes a ticket of the mapping. -/
theorem non_admin_denied (b : Bot) (user : User) (hne : user.id ≠ b.adminId) :
    (∀ requestId newStatus w,
      handleStatus b user requestId newStatus w = (b, [.permissionDenied])) ∧
    (∀ filterStatus, handleList b user filterStatus = (b, [.permissionDenied])) ∧
    (∀ statusToClear w,
      handleClear b user statusToClear w = (b, [.permissionDenied])) ∧
    (∀ c w b' rs, handleInteraction b user c w = some (b', rs) →
      ∀ k t, b.requests.get? k = some t → b'.requests.get? k = some t) := by
  have h1 : ∀ requestId newStatus w,
      handleStatus b user requestId newStatus w = (b, [.permissionDenied]) := by
    intro requestId newStatus w
    unfold handleStatus
    simp [hne]
  have h2 : ∀ filterStatus, handleList b user filterStatus = (b, [.permissionDenied]) := by
    intro f
    unfold handleList
    simp [hne]
  have h3 : ∀ statusToClear w,
      handleClear b user statusToClear w = (b, [.permissionDenied]) := by
    intro s w
    unfold handleClear
    simp [hne]
  refine ⟨h1, h2, h3, ?_⟩
  intro c w b' rs h k t hk
  cases c with
  | request title =>
    obtain ⟨id, rest, hg, hreq, -⟩ := handleRequest_eq_some h
    obtain ⟨pre, x, -, -, -, hnew⟩ := generateRequestId_eq_some hg
    rw [hreq, JSObject.get?_insertNew hnew]
    have : k ≠ id := by
      rintro rfl
      rw [JSObject.get?_eq_none_iff.2 hnew] at hk
      cases hk
    simp [this, hk]
  | status requestId newStatus =>
    simp only [handleInteraction, h1, Option.some.injEq, Prod.mk.injEq] at h
    obtain ⟨rfl, -⟩ := h
    exact hk
  | list filterStatus =>
    simp only [handleInteraction, h2, Option.some.injEq, Prod.mk.injEq] at h
    obtain ⟨rfl, -⟩ := h
    exact hk
  | clear statusToClear =>
    simp only [handleInteraction, h3, Option.some.injEq, Prod.mk.injEq] at h
    obtain ⟨rfl, -⟩ := h
    exact hk

theorem non_admin_denied_witness :
    handleStatus exampleAfter ⟨"u1", "alice"⟩ "1234" "fulfilled" ⟨"T3", [], .ok, true⟩ =
      (exampleAfter, [.permissionDenied]) ∧
    handleList exampleAfter ⟨"u1", "alice"⟩ none = (exampleAfter, [.permissionDenied]) ∧
    handleClear exampleAfter ⟨"u1", "alice"⟩ "pending" ⟨"T3", [], .ok, true⟩ =
      (exampleAfter, [.permissionDenied]) :=
  have h := non_admin_denied exampleAfter ⟨"u1", "alice"⟩ (by decide)
  ⟨h.1 _ _ _, h.2.1 _, h.2.2.1 _ _⟩

/-! ### Listing -/

theorem get?_filter {α : Type} (p : String × α → Bool) {o : JSObject α}
    (hnd : o.keys.Nodup) (k : String) (v : α) :
    JSObject.get? (List.filter p o) k = some v ↔ o.get? k = some v ∧ p (k, v) = true := by
  have hs : (JSObject.keys (List.filter p o)).Sublist (JSObject.keys o) :=
    List.Sublist.map _ (List.filter_sublist o)
  constructor
  · intro h
    have hm := JSObject.mem_of_get? h
    rw [List.mem_filter] at hm
    exact ⟨JSObject.get?_of_mem hnd hm.1, hm.2⟩
  · rintro ⟨h, hp⟩
    apply JSObject.get?_of_mem (hnd.sublist hs)
    rw [List.mem_filter]
    exact ⟨JSObject.mem_of_get? h, hp⟩

/-- C3, counterexample.  On the empty store a ticket is created under id 2000
and then one under id 1000; the unfiltered listing shows 1000 before 2000, the
reverse of the order of insertion. -/
theorem handleList_not_insertion_order :
    (handleRequests (Bot.new "admin" none) orderCreates).map
        (fun r => (r.2, (handleList r.1 ⟨"admin", "root"⟩ none).2)) =
      some (["2000", "1000"],
        [.requests none
          [("1000", ⟨"u2", "bob", "Alien", "pending", "T2", none⟩),
           ("2000", ⟨"u1", "alice", "Dune", "pending", "T1", none⟩)]]) := by
  decide

/-- C3, amended.  For the administrator, `handleList` with no filter lists
exactly the tickets of the mapping and with a filter status `s` exactly the
tickets whose status is `s`, in the same relative order as the unfiltered
listing.  The order is the property enumeration order of the mapping, which
`handleRequest` maintains: ids that are array indices, as all generated ids are,
come in ascending numeric order, whatever the order of insertion; a key that is
not an array index is placed after all existing keys. -/
theorem handleList_enumeration_order (b : Bot) (user : User)
    (hadmin : user.id = b.adminId) (hwf : b.requests.WF) :
    (∀ f, handleList b user f =
      (b, if (listEntries b.requests f).length = 0 then [.noRequests f]
          else [.requests f (listEntries b.requests f)])) ∧
    listEntries b.requests none = b.requests ∧
    (∀ k t, (k, t) ∈ listEntries b.requests none ↔ b.requests.get? k = some t) ∧
    (∀ s, s ≠ "" → listEntries b.requests (some s) =
      List.filter (fun e => decide (e.2.status = s)) b.requests) ∧
    (∀ s, s ≠ "" → ∀ k t, (k, t) ∈ listEntries b.requests (some s) ↔
      b.requests.get? k = some t ∧ t.status = s) ∧
    (∀ f, (listEntries b.requests f).Sublist (listEntries b.requests none)) ∧
    (∀ f, ((listEntries b.requests f).map Prod.fst).Pairwise JSObject.Precedes) ∧
    (∀ f, (∀ k ∈ b.requests.keys, ∃ s : Sample, k = toString (s.val + 1000)) →
      ((listEntries b.requests f).map Prod.fst).Pairwise
        (fun k k' => ∃ n m : Nat, k = toString n ∧ k' = toString m ∧ n < m)) ∧
    (∀ u title w b' rs, handleRequest b u title w = some (b', rs) →
      b'.requests.WF) ∧
    (∀ k t, arrayIndex? k = none → k ∉ b.requests.keys →
      b.requests.set k t = b.requests ++ [(k, t)]) := by
  have hnone : listEntries b.requests none = b.requests := by
    unfold listEntries; simp
  have hsome : ∀ s, s ≠ "" → listEntries b.requests (some s) =
      List.filter (fun e => decide (e.2.status = s)) b.requests := by
    intro s hs
    unfold listEntries
    simp [hs]
  have hsub : ∀ f, (listEntries b.requests f).Sublist b.requests := by
    intro f
    unfold listEntries
    exact List.filter_sublist _
  have hmem : ∀ k t, (k, t) ∈ b.requests ↔ b.requests.get? k = some t :=
    fun k t => ⟨JSObject.get?_of_mem hwf.1, JSObject.mem_of_get?⟩
  have hpw : ∀ f, ((listEntries b.requests f).map Prod.fst).Pairwise JSObject.Precedes :=
    fun f => hwf.2.sublist (List.Sublist.map _ (hsub f))
  refine ⟨?_, hnone, ?_, hsome, ?_, ?_, hpw, ?_, ?_, ?_⟩
  · intro f
    unfold handleList
    simp only [hadmin, ne_eq, not_true_eq_false, if_false]
    split <;> rfl
  · intro k t
    rw [hnone]; exact hmem k t
  · intro s hs k t
    rw [hsome s hs, List.mem_filter, hmem]
    simp
  · intro f
    rw [hnone]; exact hsub f
  · intro f hk
    have hkeys : ∀ k ∈ (listEntries b.requests f).map Prod.fst, k ∈ b.requests.keys :=
      fun k hm => (List.Sublist.map Prod.fst (hsub f)).subset hm
    refine List.Pairwise.imp_of_mem ?_ (hpw f)
    intro k k' hm hm' hp
    obtain ⟨s, rfl⟩ := hk k (hkeys k hm)
    obtain ⟨s', rfl⟩ := hk k' (hkeys k' hm')
    refine ⟨s.val + 1000, s'.val + 1000, rfl, rfl, ?_⟩
    unfold JSObject.Precedes at hp
    rw [arrayIndex?_toString_four _ (by omega) (by omega),
      arrayIndex?_toString_four _ (by omega) (by omega)] at hp
    exact hp
  · intro u title w b' rs h
    obtain ⟨id, rest, hg, hreq, -⟩ := handleRequest_eq_some h
    obtain ⟨pre, x, -, -, -, hnew⟩ := generateRequestId_eq_some hg
    rw [hreq]
    exact JSObject.wf_insertNew _ hwf hnew
  · intro k t hk hnew
    have hown : b.requests.hasOwn k = false := by
      cases hh : b.requests.hasOwn k
      · rfl
      · exact absurd (JSObject.hasOwn_iff.1 hh) hnew
    unfold JSObject.set
    simp only [hown, Bool.false_eq_true, if_false]
    apply JSObject.insertNew_eq_append
    intro x _
    unfold JSObject.Precedes
    rw [hk]
    cases arrayIndex? x <;> trivial

theorem handleList_enumeration_order_witness :
    exampleMixed.requests.WF ∧
    handleList exampleMixed ⟨"admin", "root"⟩ (some "pending") =
      (exampleMixed,
        [.requests (some "pending")
          [("1000", ⟨"u2", "bob", "Alien", "pending", "T1", none⟩),
           ("9999", ⟨"u3", "carol", "Heat", "pending", "T2", none⟩)]]) :=
  have h := handleList_enumeration_order exampleMixed ⟨"admin", "root"⟩
    (by decide) (by decide)
  ⟨by decide, (h.1 (some "pending")).trans (by rfl)⟩

/-! ### Clearing -/

theorem clearRequests_eq_filter {requests : JSObject Ticket} (hwf : requests.WF)
    (statusToClear : String) :
    clearRequests requests statusToClear =
      List.filter (fun e => decide (e.2.status ≠ statusToClear)) requests := by
  unfold clearRequests
  exact JSObject.fromEntries_eq_self (JSObject.wf_filter _ hwf)

theorem handleClear_requests (b : Bot) (user : User) (statusToClear : String)
    (w : World) (hadmin : user.id = b.adminId) :
    (handleClear b user statusToClear w).1.requests =
        clearRequests b.requests statusToClear ∧
    (handleClear b user statusToClear w).1.adminId = b.adminId := by
  unfold handleClear
  simp only [hadmin, ne_eq, not_true_eq_false, if_false]
  cases w.write <;> simp [saveRequests]

/-- C4. After `handleClear` by the administrator the mapping holds exactly the
tickets of the prior mapping whose status is not the cleared one, each under its
id, with the same field values and in the same order, and no ticket with the
cleared status; when no ticket has that status the mapping is the same as
before. -/
theorem handleClear_removes (b : Bot) (user : User) (statusToClear : String)
    (w : World) (hadmin : user.id = b.adminId) (hwf : b.requests.WF) :
    (handleClear b user statusToClear w).1.requests =
      List.filter (fun e => decide (e.2.status ≠ statusToClear)) b.requests ∧
    (∀ k t, (handleClear b user statusToClear w).1.requests.get? k = some t ↔
      b.requests.get? k = some t ∧ t.status ≠ statusToClear) ∧
    (∀ e ∈ (handleClear b user statusToClear w).1.requests,
      e.2.status ≠ statusToClear) ∧
    ((∀ e ∈ b.requests, e.2.status ≠ statusToClear) →
      (handleClear b user statusToClear w).1.requests = b.requests) := by
  have h := (handleClear_requests b user statusToClear w hadmin).1
  rw [clearRequests_eq_filter hwf] at h
  refine ⟨h, ?_, ?_, ?_⟩
  · intro k t
    rw [h, get?_filter _ hwf.1]
    simp
  · intro e he
    rw [h, List.mem_filter] at he
    simpa using he.2
  · intro hall
    rw [h, List.filter_eq_self]
    intro e he
    simpa using hall e he

theorem handleClear_removes_witness :
    exampleMixed.requests.WF ∧
    (handleClear exampleMixed ⟨"admin", "root"⟩ "fulfilled"
        ⟨"T4", [], .ok, true⟩).1.requests =
      [("1000", ⟨"u2", "bob", "Alien", "pending", "T1", none⟩),
       ("9999", ⟨"u3", "carol", "Heat", "pending", "T2", none⟩)] :=
  have h := handleClear_removes exampleMixed ⟨"admin", "root"⟩ "fulfilled"
    ⟨"T4", [], .ok, true⟩ (by decide) (by decide)
  ⟨by decide, h.1.trans (by decide)⟩

theorem clearedCount_eq (requests : JSObject Ticket) (statusToClear : String) :
    ((requests.length : Int) -
        (List.filter (fun e => decide (e.2.status ≠ statusToClear)) requests).length) =
      (List.countP (fun e => decide (e.2.status = statusToClear)) requests : Nat) := by
  have h : requests.length =
      List.countP (fun e => decide (e.2.status = statusToClear)) requests +
        (List.filter (fun e => decide (e.2.status ≠ statusToClear)) requests).length := by
    induction requests with
    | nil => rfl
    | cons e rest ih =>
      by_cases hs : e.2.status = statusToClear
      · simp only [List.length_cons, List.countP_cons, List.filter_cons, hs, ne_eq,
          not_true_eq_false, decide_True, decide_False, if_true, Bool.false_eq_true,
          if_false, ih]
        omega
      · simp only [List.length_cons, List.countP_cons, List.filter_cons, hs, ne_eq,
          not_false_eq_true, decide_True, decide_False, if_true, Bool.false_eq_true,
          if_false, ih]
        omega
  omega

/-- C5. The count in the reply of `handleClear` is the number of tickets that
had the cleared status before the call: a count is reported whenever the save
succeeds, any count reported is that number, it is 0 when no ticket has the
status, and a second clear of the same status right after reports 0. -/
theorem handleClear_count (b : Bot) (user : User) (statusToClear : String)
    (w : World) (hadmin : user.id = b.adminId) (hwf : b.requests.WF) :
    (w.write = .ok → (handleClear b user statusToClear w).2 =
      [.cleared (List.countP (fun e => decide (e.2.status = statusToClear)) b.requests : Nat)
        statusToClear]) ∧
    (∀ n s, Reply.cleared n s ∈ (handleClear b user statusToClear w).2 →
      n = (List.countP (fun e => decide (e.2.status = statusToClear)) b.requests : Nat)) ∧
    ((∀ e ∈ b.requests, e.2.status ≠ statusToClear) → w.write = .ok →
      (handleClear b user statusToClear w).2 = [.cleared 0 statusToClear]) ∧
    (∀ w' : World, w'.write = .ok →
      (handleClear (handleClear b user statusToClear w).1 user statusToClear w').2 =
        [.cleared 0 statusToClear]) := by
  have hcount : ((b.requests.keys.length : Int) -
      (clearRequests b.requests statusToClear).keys.length) =
      (List.countP (fun e => decide (e.2.status = statusToClear)) b.requests : Nat) := by
    rw [clearRequests_eq_filter hwf]
    simp only [JSObject.keys, List.length_map]
    exact clearedCount_eq b.requests statusToClear
  have hok : ∀ (b : Bot) (w : World), user.id = b.adminId → b.requests.WF →
      w.write = .ok → (handleClear b user statusToClear w).2 =
      [.cleared (List.countP (fun e => decide (e.2.status = statusToClear)) b.requests : Nat)
        statusToClear] := by
    intro b w hadmin hwf hw
    have hcount : ((b.requests.keys.length : Int) -
        (clearRequests b.requests statusToClear).keys.length) =
        (List.countP (fun e => decide (e.2.status = statusToClear)) b.requests : Nat) := by
      rw [clearRequests_eq_filter hwf]
      simp only [JSObject.keys, List.length_map]
      exact clearedCount_eq b.requests statusToClear
    unfold handleClear
    simp only [hadmin, ne_eq, not_true_eq_false, if_false, hw, saveRequests, hcount]
  refine ⟨hok b w hadmin hwf, ?_, ?_, ?_⟩
  · intro n s hm
    unfold handleClear at hm
    simp only [hadmin, ne_eq, not_true_eq_false, if_false, hcount] at hm
    cases hw : w.write with
    | ok =>
      simp only [hw, saveRequests, List.mem_singleton, Reply.cleared.injEq] at hm
      exact hm.1
    | failed left =>
      simp [hw, saveRequests] at hm
  · intro hall hw
    rw [hok b w hadmin hwf hw]
    have : List.countP (fun e => decide (e.2.status = statusToClear)) b.requests = 0 := by
      rw [List.countP_eq_zero]
      intro e he
      simpa using hall e he
    rw [this]; rfl
  · intro w' hw'
    obtain ⟨hreq, hadm⟩ := handleClear_requests b user statusToClear w hadmin
    have hwf' : (handleClear b user statusToClear w).1.requests.WF := by
      rw [hreq, clearRequests_eq_filter hwf]
      exact JSObject.wf_filter _ hwf
    rw [hok _ w' (hadmin.trans hadm.symm) hwf' hw']
    have : List.countP (fun e => decide (e.2.status = statusToClear))
        (handleClear b user statusToClear w).1.requests = 0 := by
      rw [List.countP_eq_zero, hreq, clearRequests_eq_filter hwf]
      intro e he
      rw [List.mem_filter] at he
      simpa using he.2
    rw [this]; rfl

theorem handleClear_count_witness :
    exampleMixed.requests.WF ∧
    (handleClear exampleMixed ⟨"admin", "root"⟩ "fulfilled" ⟨"T4", [], .ok, true⟩).2 =
      [.cleared 1 "fulfilled"] :=
  have h := handleClear_count exampleMixed ⟨"admin", "root"⟩ "fulfilled"
    ⟨"T4", [], .ok, true⟩ (by decide) (by decide)
  ⟨by decide, (h.1 rfl).trans (by decide)⟩

/-! ### Termination of id generation -/

theorem exists_first_unused (b : Bot) (samples : List Sample)
    (h : ∃ s ∈ samples, toString (s.val + 1000) ∉ b.requests.keys) :
    ∃ pre x post, samples = pre ++ x :: post ∧
      (∀ s ∈ pre, toString (s.val + 1000) ∈ b.requests.keys) ∧
      toString (x.val + 1000) ∉ b.requests.keys := by
  induction samples with
  | nil => simp at h
  | cons s tl ih =>
    by_cases hs : toString (s.val + 1000) ∈ b.requests.keys
    · have h' : ∃ s ∈ tl, toString (s.val + 1000) ∉ b.requests.keys := by
        obtain ⟨y, hy, hny⟩ := h
        rcases List.mem_cons.1 hy with rfl | hy
        · exact absurd hs hny
        · exact ⟨y, hy, hny⟩
      obtain ⟨pre, x, post, heq, hpre, hx⟩ := ih h'
      refine ⟨s :: pre, x, post, by simp [heq], ?_, hx⟩
      intro y hy
      rcases List.mem_cons.1 hy with rfl | hy
      · exact hs
      · exact hpre y hy
    · exact ⟨[], s, tl, rfl, by simp, hs⟩

/-- C10. When some draw of the random source gives an id that is not a key of
the store, `generateRequestId` returns: its result is the id of the first such
draw, every earlier draw having been rejected as taken.  In particular, when
two `/request` commands follow each other and the source gives the same draw
`v` first in both, the second command rejects `v` and takes the next draw `x`,
so both tickets are in the store under different ids. -/
theorem generateRequestId_terminates (b : Bot) :
    (∀ samples : List Sample,
      (∃ s ∈ samples, toString (s.val + 1000) ∉ b.requests.keys) →
      ∃ pre x post, samples = pre ++ x :: post ∧
        (∀ s ∈ pre, toString (s.val + 1000) ∈ b.requests.keys) ∧
        toString (x.val + 1000) ∉ b.requests.keys ∧
        generateRequestId b samples = some (toString (x.val + 1000), post)) ∧
    (∀ (v x : Sample) (rest₁ rest₂ : List Sample) (u₁ u₂ : User) (title₁ title₂ : String)
        (w₁ w₂ : World),
      toString (v.val + 1000) ∉ b.requests.keys →
      toString (x.val + 1000) ∉ b.requests.keys → x ≠ v →
      w₁.random = v :: rest₁ → w₂.random = v :: x :: rest₂ →
      ∃ b₁ rs₁ b₂ rs₂,
        handleRequest b u₁ title₁ w₁ = some (b₁, rs₁) ∧
        generateRequestId b w₁.random = some (toString (v.val + 1000), rest₁) ∧
        handleRequest b₁ u₂ title₂ w₂ = some (b₂, rs₂) ∧
        generateRequestId b₁ w₂.random = some (toString (x.val + 1000), rest₂) ∧
        toString (x.val + 1000) ≠ toString (v.val + 1000) ∧
        b₂.requests.get? (toString (v.val + 1000)) =
          some ⟨u₁.id, u₁.username, title₁, "pending", w₁.now, none⟩ ∧
        b₂.requests.get? (toString (x.val + 1000)) =
          some ⟨u₂.id, u₂.username, title₂, "pending", w₂.now, none⟩) := by
  constructor
  · intro samples h
    obtain ⟨pre, x, post, heq, hpre, hx⟩ := exists_first_unused b samples h
    exact ⟨pre, x, post, heq, hpre, hx, heq ▸ generateRequestId_append pre x post hpre hx⟩
  · intro v x rest₁ rest₂ u₁ u₂ title₁ title₂ w₁ w₂ hv hx hne hw₁ hw₂
    have hg₁ : generateRequestId b w₁.random = some (toString (v.val + 1000), rest₁) := by
      rw [hw₁]; exact generateRequestId_append [] v rest₁ (by simp) hv
    have hidne : toString (x.val + 1000) ≠ toString (v.val + 1000) := by
      intro he
      have := toString_four_injective (by omega) (by omega) (by omega) (by omega) he
      exact hne (Fin.ext (by omega))
    have hsome₁ : ∃ r, handleRequest b u₁ title₁ w₁ = some r := by
      unfold handleRequest
      rw [hg₁]
      cases w₁.write <;> cases w₁.deliver <;> simp [saveRequests]
    obtain ⟨⟨b₁, rs₁⟩, hr₁⟩ := hsome₁
    obtain ⟨id, rest, hg, hreq₁, -⟩ := handleRequest_eq_some hr₁
    rw [hg₁] at hg
    simp only [Option.some.injEq, Prod.mk.injEq] at hg
    obtain ⟨rfl, rfl⟩ := hg
    have hv₁ : toString (v.val + 1000) ∈ b₁.requests.keys := by
      rw [hreq₁]; exact JSObject.mem_keys_insertNew.2 (Or.inl rfl)
    have hx₁ : toString (x.val + 1000) ∉ b₁.requests.keys := by
      rw [hreq₁, JSObject.mem_keys_insertNew]
      rintro (h | h)
      · exact hidne h
      · exact hx h
    have hg₂ : generateRequestId b₁ w₂.random = some (toString (x.val + 1000), rest₂) := by
      rw [hw₂]
      exact generateRequestId_append [v] x rest₂ (by simpa using hv₁) hx₁
    have hsome₂ : ∃ r, handleRequest b₁ u₂ title₂ w₂ = some r := by
      unfold handleRequest
      rw [hg₂]
      cases w₂.write <;> cases w₂.deliver <;> simp [saveRequests]
    obtain ⟨⟨b₂, rs₂⟩, hr₂⟩ := hsome₂
    obtain ⟨id, rest, hg, hreq₂, -⟩ := handleRequest_eq_some hr₂
    rw [hg₂] at hg
    simp only [Option.some.injEq, Prod.mk.injEq] at hg
    obtain ⟨rfl, rfl⟩ := hg
    refine ⟨b₁, rs₁, b₂, rs₂, hr₁, hg₁, hr₂, hg₂, hidne, ?_, ?_⟩
    · rw [hreq₂, JSObject.get?_insertNew hx₁, hreq₁, JSObject.get?_insertNew hv]
      simp [hidne.symm]
    · rw [hreq₂, JSObject.get?_insertNew hx₁]
      simp

theorem generateRequestId_terminates_witness :
    (∃ s ∈ ([234, 234, 7] : List Sample),
      toString (s.val + 1000) ∉ exampleStore.requests.keys) ∧
    (∃ pre x post, ([234, 234, 7] : List Sample) = pre ++ x :: post ∧
      (∀ s ∈ pre, toString (s.val + 1000) ∈ exampleStore.requests.keys) ∧
      toString (x.val + 1000) ∉ exampleStore.requests.keys ∧
      generateRequestId exampleStore [234, 234, 7] =
        some (toString (x.val + 1000), post)) ∧
    generateRequestId exampleStore [234, 234, 7] = some ("1007", []) ∧
    (∃ b₁ rs₁ b₂ rs₂,
      handleRequest exampleStore ⟨"u2", "bob"⟩ "Alien" ⟨"T1", [5], .ok, true⟩ =
        some (b₁, rs₁) ∧
      generateRequestId exampleStore [5] = some (toString ((5 : Sample).val + 1000), []) ∧
      handleRequest b₁ ⟨"u3", "carol"⟩ "Heat" ⟨"T2", [5, 6], .ok, true⟩ = some (b₂, rs₂) ∧
      generateRequestId b₁ [5, 6] = some (toString ((6 : Sample).val + 1000), []) ∧
      toString ((6 : Sample).val + 1000) ≠ toString ((5 : Sample).val + 1000) ∧
      b₂.requests.get? (toString ((5 : Sample).val + 1000)) =
        some ⟨"u2", "bob", "Alien", "pending", "T1", none⟩ ∧
      b₂.requests.get? (toString ((6 : Sample).val + 1000)) =
        some ⟨"u3", "carol", "Heat", "pending", "T2", none⟩) :=
  ⟨⟨7, by decide, by decide⟩,
   (generateRequestId_terminates exampleStore).1 [234, 234, 7] ⟨7, by decide, by decide⟩,
   by decide,
   (generateRequestId_terminates exampleStore).2 5 6 [] [] ⟨"u2", "bob"⟩ ⟨"u3", "carol"⟩
     "Alien" "Heat" ⟨"T1", [5], .ok, true⟩ ⟨"T2", [5, 6], .ok, true⟩
     (by decide) (by decide) (by decide) rfl rfl⟩

/-! ### Round trip through the file -/

theorem ticketOfJson_ticketToJson (t : Ticket) : ticketOfJson (ticketToJson t) = some t := by
  obtain ⟨a, b, c, d, e, u⟩ := t
  cases u with
  | none => rfl
  | some u => rfl

theorem mapM_ticketOfJson (requests : JSObject Ticket) :
    List.mapM (fun e : String × Json => (ticketOfJson e.2).map fun t => (e.1, t))
        (requests.map fun e => (e.1, ticketToJson e.2)) = some requests := by
  induction requests with
  | nil => rfl
  | cons e rest ih =>
    simp only [List.map_cons, List.mapM_cons, ticketOfJson_ticketToJson, ih]
    rfl

theorem wf_map_values {α β : Type} (f : String × α → β) {o : JSObject α}
    (hwf : JSObject.WF o) : JSObject.WF (o.map fun e => (e.1, f e)) := by
  have : JSObject.keys (o.map fun e => (e.1, f e)) = JSObject.keys o := by
    simp [JSObject.keys, List.map_map, Function.comp_def]
  unfold JSObject.WF
  rw [this]
  exact hwf

/-- Parsing the document that `JSON.stringify` writes for a mapping gives the
mapping back. -/
theorem parseRequests_stringify {requests : JSObject Ticket} (hwf : requests.WF) :
    parseRequests (stringify requests) = some requests := by
  unfold parseRequests stringify
  simp only
  rw [JSObject.fromEntries_eq_self (wf_map_values (fun e => ticketToJson e.2) hwf)]
  exact mapM_ticketOfJson requests

theorem loadRequests_saved (adminId : String) {requests : JSObject Ticket}
    (hwf : requests.WF) (write : WriteResult) :
    loadRequests (Bot.new adminId (some (.json (stringify requests)))) false write =
      some { Bot.new adminId (some (.json (stringify requests))) with
        requests := requests } := by
  unfold loadRequests
  simp [Bot.new, parseRequests_stringify hwf]

theorem reloaded_of_saved {b : Bot} (hwf : b.requests.WF)
    (hdisk : b.disk = some (.json (stringify b.requests))) : Reloaded b := by
  intro write
  rw [hdisk, loadRequests_saved b.adminId hwf write]
  rfl

/-- C9. When the save succeeds, after `handleRequest`, after `handleStatus` by
the administrator on an existing ticket and after `handleClear` by the
administrator, the file holds the document of the in-memory mapping, and a
process started on that file loads a mapping equal to the in-memory one: the
same ids in the same order with the same field values, updatedAt present or
absent as in memory. -/
theorem reload_reproduces (b : Bot) (w : World) (hwf : b.requests.WF)
    (hw : w.write = .ok) :
    (∀ user title b' rs, handleRequest b user title w = some (b', rs) →
      b'.disk = some (.json (stringify b'.requests)) ∧ Reloaded b') ∧
    (∀ user requestId newStatus t, user.id = b.adminId →
      b.requests.get? requestId = some t →
      (handleStatus b user requestId newStatus w).1.disk =
        some (.json (stringify (handleStatus b user requestId newStatus w).1.requests)) ∧
      Reloaded (handleStatus b user requestId newStatus w).1) ∧
    (∀ user statusToClear, user.id = b.adminId →
      (handleClear b user statusToClear w).1.disk =
        some (.json (stringify (handleClear b user statusToClear w).1.requests)) ∧
      Reloaded (handleClear b user statusToClear w).1) := by
  refine ⟨?_, ?_, ?_⟩
  · intro user title b' rs h
    have hwf' : b'.requests.WF := by
      obtain ⟨id, rest, hg, hreq, -⟩ := handleRequest_eq_some h
      obtain ⟨pre, x, -, -, -, hnew⟩ := generateRequestId_eq_some hg
      rw [hreq]
      exact JSObject.wf_insertNew _ hwf hnew
    have hdisk : b'.disk = some (.json (stringify b'.requests)) := by
      unfold handleRequest at h
      split at h
      · simp at h
      · simp only [hw, saveRequests] at h
        split at h <;> simp only [Option.some.injEq, Prod.mk.injEq] at h <;>
          obtain ⟨rfl, -⟩ := h <;> rfl
    exact ⟨hdisk, reloaded_of_saved hwf' hdisk⟩
  · intro user requestId newStatus t hadmin hget
    have hwf' : (handleStatus b user requestId newStatus w).1.requests.WF := by
      unfold JSObject.WF
      rw [(handleStatus_keys b user requestId newStatus w).1]
      exact hwf
    have hdisk : (handleStatus b user requestId newStatus w).1.disk =
        some (.json (stringify (handleStatus b user requestId newStatus w).1.requests)) := by
      rw [handleStatus_of_ticket newStatus w hadmin hget]
      unfold finishStatus
      simp only [hw, saveRequests]
      split <;> rfl
    exact ⟨hdisk, reloaded_of_saved hwf' hdisk⟩
  · intro user statusToClear hadmin
    have hwf' : (handleClear b user statusToClear w).1.requests.WF := by
      rw [(handleClear_requests b user statusToClear w hadmin).1,
        clearRequests_eq_filter hwf]
      exact JSObject.wf_filter _ hwf
    have hdisk : (handleClear b user statusToClear w).1.disk =
        some (.json (stringify (handleClear b user statusToClear w).1.requests)) := by
      unfold handleClear
      simp only [hadmin, ne_eq, not_true_eq_false, if_false, hw, saveRequests]
    exact ⟨hdisk, reloaded_of_saved hwf' hdisk⟩

theorem reload_reproduces_witness :
    exampleCreated.requests.WF ∧
    handleRequest (Bot.new "admin" none) ⟨"u1", "alice"⟩ "Dune" ⟨"T1", [0], .ok, true⟩ =
      some (exampleCreated, [.submitted "Dune" "1000"]) ∧
    Reloaded exampleCreated ∧
    (handleStatus exampleCreated ⟨"admin", "root"⟩ "1000" "fulfilled"
        ⟨"T2", [], .ok, true⟩).1.requests = exampleFulfilled.requests ∧
    Reloaded (handleStatus exampleCreated ⟨"admin", "root"⟩ "1000" "fulfilled"
        ⟨"T2", [], .ok, true⟩).1 ∧
    Reloaded (handleClear exampleCreated ⟨"admin", "root"⟩ "pending"
        ⟨"T2", [], .ok, true⟩).1 :=
  have h₀ := reload_reproduces (Bot.new "admin" none) ⟨"T1", [0], .ok, true⟩
    (by decide) rfl
  have h₁ := reload_reproduces exampleCreated ⟨"T2", [], .ok, true⟩ (by decide) rfl
  ⟨by decide, by rfl, (h₀.1 ⟨"u1", "alice"⟩ "Dune" exampleCreated _ (by rfl)).2, by decide,
    (h₁.2.1 ⟨"admin", "root"⟩ "1000" "fulfilled"
      ⟨"u1", "alice", "Dune", "pending", "T1", none⟩ (by decide) (by decide)).2,
    (h₁.2.2 ⟨"admin", "root"⟩ "pending" (by decide)).2⟩

/-! ### Reachable states -/

theorem mem_insertNew {α : Type} {k : String} {v : α} {o : JSObject α} {e : String × α}
    (h : e ∈ o.insertNew k v) : e = (k, v) ∨ e ∈ o := by
  revert h
  induction o with
  | nil => intro h; simpa [JSObject.insertNew] using h
  | cons e' rest ih =>
    intro h
    obtain ⟨k', v'⟩ := e'
    by_cases hc : JSObject.comesBefore k k' = true
    · simpa [JSObject.insertNew, hc] using h
    · simp only [JSObject.insertNew, hc, Bool.false_eq_true, if_false, List.mem_cons] at h
      rcases h with h1 | h2
      · exact Or.inr (List.mem_cons.2 (Or.inl h1))
      · rcases ih h2 with h3 | h4
        · exact Or.inl h3
        · exact Or.inr (List.mem_cons_of_mem _ h4)

theorem mem_replace {α : Type} {k : String} {v : α} {o : JSObject α} {e : String × α}
    (h : e ∈ o.replace k v) : e = (k, v) ∨ e ∈ o := by
  revert h
  induction o with
  | nil => intro h; simp [JSObject.replace] at h
  | cons e' rest ih =>
    intro h
    obtain ⟨k', v'⟩ := e'
    by_cases hc : k' = k
    · subst hc
      simp only [JSObject.replace, if_true, List.mem_cons] at h
      rcases h with h1 | h2
      · exact Or.inl h1
      · exact Or.inr (List.mem_cons_of_mem _ h2)
    · simp only [JSObject.replace, hc, if_false, List.mem_cons] at h
      rcases h with h1 | h2
      · exact Or.inr (List.mem_cons.2 (Or.inl h1))
      · rcases ih h2 with h3 | h4
        · exact Or.inl h3
        · exact Or.inr (List.mem_cons_of_mem _ h4)

/-- The mapping after `handleStatus` is the old one, or the old one with the
addressed ticket given the new status. -/
theorem handleStatus_requests (b : Bot) (user : User) (requestId newStatus : String)
    (w : World) :
    (handleStatus b user requestId newStatus w).1.requests = b.requests ∨
    ∃ t : Ticket, (handleStatus b user requestId newStatus w).1.requests =
      b.requests.replace requestId
        ⟨t.userId, t.username, t.title, newStatus, t.requestedAt, some w.now⟩ := by
  unfold handleStatus
  split
  · exact Or.inl rfl
  · split
    · exact Or.inl rfl
    · cases b.getRequest requestId with
      | ticket t =>
        right
        exact ⟨t, by simp only [(finishStatus_fields _ _ _ _).1]⟩
      | objectPrototype => left; simp only [(finishStatus_fields _ _ _ _).1]
      | function name => left; simp only [(finishStatus_fields _ _ _ _).1]
      | string s => exact Or.inl rfl
      | undefined => exact Or.inl rfl

theorem reachable_invariant {adminId : String} {b : Bot} (h : Reachable adminId b) :
    b.requests.WF ∧
      ∀ e ∈ b.requests,
        e.2.status ∈ ["pending", "in progress", "fulfilled", "rejected", "delayed"] := by
  induction h with
  | init disk => exact ⟨by simp [Bot.new, JSObject.WF], by simp [Bot.new]⟩
  | @step b b' rs user c w _ hoff hstep ih =>
    obtain ⟨hwf, hall⟩ := ih
    cases c with
    | request title =>
      obtain ⟨id, rest, hg, hreq, -⟩ := handleRequest_eq_some hstep
      obtain ⟨pre, x, -, -, -, hnew⟩ := generateRequestId_eq_some hg
      rw [hreq]
      refine ⟨JSObject.wf_insertNew _ hwf hnew, ?_⟩
      intro e he
      rcases mem_insertNew he with rfl | he
      · simp
      · exact hall e he
    | status requestId newStatus =>
      simp only [handleInteraction, Option.some.injEq] at hstep
      have hb : b' = (handleStatus b user requestId newStatus w).1 := by rw [hstep]
      subst hb
      refine ⟨?_, ?_⟩
      · unfold JSObject.WF
        rw [(handleStatus_keys b user requestId newStatus w).1]
        exact hwf
      · intro e he
        rcases handleStatus_requests b user requestId newStatus w with heq | ⟨t, heq⟩
        · rw [heq] at he; exact hall e he
        · rw [heq] at he
          rcases mem_replace he with rfl | he
          · have : newStatus ∈ statusChoices := hoff
            simp only [statusChoices, List.mem_cons, List.mem_singleton,
              List.not_mem_nil, or_false] at this
            rcases this with rfl | rfl | rfl | rfl <;> simp
          · exact hall e he
    | list filterStatus =>
      simp only [handleInteraction, Option.some.injEq] at hstep
      have hb : b' = (handleList b user filterStatus).1 := by rw [hstep]
      subst hb
      have : (handleList b user filterStatus).1 = b := by
        unfold handleList
        split
        · rfl
        · simp only; split <;> rfl
      rw [this]
      exact ⟨hwf, hall⟩
    | clear statusToClear =>
      simp only [handleInteraction, Option.some.injEq] at hstep
      have hb : b' = (handleClear b user statusToClear w).1 := by rw [hstep]
      subst hb
      by_cases hadmin : user.id = b.adminId
      · rw [(handleClear_requests b user statusToClear w hadmin).1,
          clearRequests_eq_filter hwf]
        refine ⟨JSObject.wf_filter _ hwf, ?_⟩
        intro e he
        exact hall e (List.mem_filter.1 he).1
      · have : (handleClear b user statusToClear w).1 = b := by
          unfold handleClear
          simp [hadmin]
        rw [this]
        exact ⟨hwf, hall⟩

/-- C8. In every state reached from the empty store by `/request`, `/status`
and `/clear` commands (and `/list`) that follow the registered schema, every
ticket of the mapping has one of the five statuses pending, in progress,
fulfilled, rejected, delayed; and the ticket that `handleRequest` stores under
the generated id has status pending and no updatedAt. -/
theorem reachable_status (adminId : String) (b : Bot) (h : Reachable adminId b) :
    (∀ k t, b.requests.get? k = some t →
      t.status ∈ ["pending", "in progress", "fulfilled", "rejected", "delayed"]) ∧
    (∀ user title w b' rs, handleRequest b user title w = some (b', rs) →
      ∃ id rest, generateRequestId b w.random = some (id, rest) ∧
        b'.requests.get? id =
          some ⟨user.id, user.username, title, "pending", w.now, none⟩) := by
  obtain ⟨-, hall⟩ := reachable_invariant h
  refine ⟨fun k t hk => hall (k, t) (JSObject.mem_of_get? hk), ?_⟩
  intro user title w b' rs hr
  obtain ⟨id, rest, hg, hreq, -⟩ := handleRequest_eq_some hr
  obtain ⟨pre, x, -, -, -, hnew⟩ := generateRequestId_eq_some hg
  refine ⟨id, rest, hg, ?_⟩
  rw [hreq, JSObject.get?_insertNew hnew]
  simp

theorem reachable_status_witness :
    Reachable "admin" exampleFulfilled ∧
    (∀ k t, exampleFulfilled.requests.get? k = some t →
      t.status ∈ ["pending", "in progress", "fulfilled", "rejected", "delayed"]) :=
  have hr : Reachable "admin" exampleFulfilled :=
    @Reachable.step "admin" exampleCreated exampleFulfilled
      [.statusUpdated "1000" "fulfilled"] ⟨"admin", "root"⟩
      (.status "1000" "fulfilled") ⟨"T2", [], .ok, true⟩
      (@Reachable.step "admin" (Bot.new "admin" none) exampleCreated
        [.submitted "Dune" "1000"] ⟨"u1", "alice"⟩ (.request "Dune")
        ⟨"T1", [0], .ok, true⟩ (Reachable.init none) trivial (by rfl))
      (by simp [Command.Offered, statusChoices]) (by rfl)
  ⟨hr, (reachable_status "admin" exampleFulfilled hr).1⟩

end RequestBot
